import Mathlib

/-!
Verification of the MyxBoard result-lifecycle manager of the remyxai CLI
client against its specification.

The Python sources are shallowly embedded:
* JSON-like runtime values (`dict`, `list`, `str`, `int`, `float`, `None`)
  become the inductive `JVal`; Python dictionaries become ordered
  association lists with Python's update-in-place / append-at-end
  assignment semantics (`dinsert`) and `dict.get` lookups (`dget`).
* Python floats become `PyFloat`: either a finite value (represented by a
  rational) or one of the non-finite values NaN / Infinity / -Infinity.
* Stateful methods of `remyxai/client/myxboard.py` become explicit
  state-passing functions over the board's `results` dictionary; remote
  HTTP calls are abstracted as oracle functions passed in as arguments.
* A raised Python exception becomes an `Except.error`.
-/

/-- Model of a Python float: a finite value or a non-finite value
(NaN, Infinity, -Infinity). -/
inductive PyFloat where
  | finite (q : Rat)
  | nan
  | inf
  | ninf
deriving DecidableEq, Repr

/-- Model of the JSON-like Python runtime values handled by the client:
strings, floats, ints, dicts (ordered association lists), lists, None. -/
inductive JVal where
  | s (v : String)
  | f (v : PyFloat)
  | i (n : Int)
  | dict (entries : List (String × JVal))
  | arr (items : List JVal)
  | null

/-- Lookup of a key in a Python dict (association list), first match. -/
def dlookup : List (String × JVal) → String → Option JVal
  | [], _ => none
  | (k2, v) :: rest, k => if k2 = k then some v else dlookup rest k

/-- Python dict assignment `d[k] = v`: update in place if the key exists
(keeping its position), otherwise append the new key at the end. -/
def dinsert : List (String × JVal) → String → JVal → List (String × JVal)
  | [], k, v => [(k, v)]
  | (k2, v2) :: rest, k, v =>
    if k2 = k then (k2, v) :: rest else (k2, v2) :: dinsert rest k v

/-- Python `k in d` for a dict. -/
def hasKey (d : List (String × JVal)) (k : String) : Bool :=
  (dlookup d k).isSome

/-- Python `d.get(k, default)`. -/
def dget (d : List (String × JVal)) (k : String) (default : JVal) : JVal :=
  (dlookup d k).getD default

/-- View a value as a dict (Python code that indexes into a value assumed
to be a dict); non-dict values give the empty dict. -/
def JVal.asDict : JVal → List (String × JVal)
  | .dict d => d
  | _ => []

/-- View a value as a list; non-list values give the empty list. -/
def JVal.asArr : JVal → List JVal
  | .arr l => l
  | _ => []

/-- Extract a string (Python code that uses a value as a str). -/
def jStr : JVal → String
  | .s v => v
  | _ => ""

/-- Extract an int (Python code that uses a value as an int). -/
def jInt : JVal → Int
  | .i n => n
  | _ => 0

/-- Python truthiness of a value. -/
def JVal.truthy : JVal → Bool
  | .s v => v ≠ ""
  | .f (.finite q) => q ≠ 0
  | .f _ => true
  | .i n => n ≠ 0
  | .dict d => !d.isEmpty
  | .arr l => !l.isEmpty
  | .null => false

/-- Python `x == "COMPLETED"`: true exactly for the string "COMPLETED"
(comparison of a non-string against a string is `False` in Python). -/
def isCompleted : JVal → Bool
  | .s v => v = "COMPLETED"
  | _ => false

/-! ## Supported-model allow-list and model-name mapping
From `remyxai/client/myxboard.py` (class `MyxBoard`) and
`remyxai/api/tasks.py` (`run_myxmatch`). -/

/-- Python `s.split(sep)` for a single-character separator: split at every
occurrence, keeping empty segments (helper carrying the current segment in
reverse). -/
def pySplitAux (sep : Char) : List Char → List Char → List String
  | [], cur => [String.mk cur.reverse]
  | c :: rest, cur =>
    if c = sep then String.mk cur.reverse :: pySplitAux sep rest []
    else pySplitAux sep rest (c :: cur)

/-- Python `s.split(sep)` for a single-character separator. -/
def pySplit (sep : Char) (s : String) : List String := pySplitAux sep s.data []

/-- Python `c in s` for a single-character needle. -/
def pyContains (s : String) (c : Char) : Bool := s.data.contains c

/-- Python `s.replace("/", "--")`. -/
def pyReplaceSlashes (s : String) : String :=
  String.mk (s.data.flatMap (fun c => if c = '/' then ['-', '-'] else [c]))

/-- `MyxBoard.MYXMATCH_SUPPORTED_MODELS`. -/
def MYXMATCH_SUPPORTED_MODELS : List String := [
  "Phi-3-mini-4k-instruct",
  "BioMistral-7B",
  "CodeLlama-7b-Instruct-hf",
  "gorilla-openfunctions-v2",
  "Llama-2-7b-hf",
  "Mistral-7B-Instruct-v0.3",
  "Meta-Llama-3-8B",
  "Meta-Llama-3-8B-Instruct",
  "Qwen2-1.5B",
  "Qwen2-1.5B-Instruct"]

/-- The model-name mapping inside `MyxBoard._validate_models`:
`model.split("/")[1] if "/" in model else model`. -/
def clientMapModel (model : String) : String :=
  if pyContains model '/' then (pySplit '/' model).getD 1 "" else model

/-- The identical model-name mapping inside `run_myxmatch`
(`remyxai/api/tasks.py`): `model.split("/")[1] if "/" in model else model`. -/
def tasksMapModel (model : String) : String :=
  if pyContains model '/' then (pySplit '/' model).getD 1 "" else model

/-- `MyxBoard._validate_models`: iterates over the models and raises a
`ValueError` at the first model whose mapped name is not in the allow-list.
The error payload records the model identifiers the message names
(the message names exactly one model). -/
def validate_models : List String → Except (List String) Unit
  | [] => .ok ()
  | model :: rest =>
    if clientMapModel model ∈ MYXMATCH_SUPPORTED_MODELS then
      validate_models rest
    else
      .error [model]

/-- `_validate_models` of `remyxai/utils/myxboard.py`: collects all models
not in the supported list and raises one error naming all of them. -/
def utils_validate_models (models supported : List String) : Except (List String) Unit :=
  let unsupported := models.filter (fun m => !(supported.contains m))
  if unsupported.isEmpty then .ok () else .error unsupported

/-- Python `urllib.parse.quote(s, safe="")`: percent-encode every UTF-8
byte outside the always-safe set (letters, digits, `_ . - ~`). -/
def isSafeByte (b : UInt8) : Bool :=
  (65 ≤ b && b ≤ 90) || (97 ≤ b && b ≤ 122) || (48 ≤ b && b ≤ 57) ||
    b == 95 || b == 46 || b == 45 || b == 126

def hexDigitChar (n : Nat) : Char :=
  if n < 10 then Char.ofNat (48 + n) else Char.ofNat (55 + n)

def urlQuote (str : String) : String :=
  String.join ((str.data.flatMap String.utf8EncodeChar).map (fun b =>
    if isSafeByte b then String.singleton (Char.ofNat b.toNat)
    else "%" ++ String.singleton (hexDigitChar (b.toNat / 16)) ++
      String.singleton (hexDigitChar (b.toNat % 16))))

/-- `MyxBoard._sanitize_name`:
`urllib.parse.quote(name.replace("/", "--"), safe="")`. -/
def sanitize_name (name : String) : String :=
  urlQuote (pyReplaceSlashes name)

/-- Local state of a `MyxBoard` object (the fields set by `__init__`). -/
structure MyxBoardState where
  name : String
  sanitizedName : String
  models : List String
  fromHfCollection : Bool
  results : List (String × JVal)
  jobStatus : List (String × JVal)

/-- `MyxBoard._populate_from_existing` together with the
`download_myxboard` payload: `models` is replaced by the server record and
`results` / `job_status` are read from the downloaded data (unwrapping a
top-level `"message"` key when present). -/
def populateFromExisting (b : MyxBoardState) (exModels : List String)
    (downloaded : List (String × JVal)) : MyxBoardState :=
  let resultsData :=
    match dlookup downloaded "message" with
    | some v => v.asDict
    | none => downloaded
  { b with
    models := exModels
    results := (dget resultsData "results" (.dict [])).asDict
    jobStatus := (dget resultsData "job_status" (.dict [])).asDict }

/-- `MyxBoard.__init__` on the `hf_collection_name=None` path with a
caller-supplied `name`: set the name and its sanitized form, take the
models from `model_repo_ids` (or `[]` when `None`), validate them, and
then either populate from an existing remote board of the same sanitized
name (modelled by the `existing` argument carrying the server record's
models and the `download_myxboard` payload) or store the new board
remotely (a remote call that leaves local state unchanged). -/
def MyxBoard.init (modelRepoIds : Option (List String)) (name : String)
    (existing : Option (List String × List (String × JVal))) :
    Except (List String) MyxBoardState :=
  let models := modelRepoIds.getD []
  match validate_models models with
  | .error e => .error e
  | .ok () =>
    let b : MyxBoardState :=
      { name := name
        sanitizedName := sanitize_name name
        models := models
        fromHfCollection := false
        results := []
        jobStatus := [] }
    match existing with
    | some (exModels, downloaded) => .ok (populateFromExisting b exModels downloaded)
    | none => .ok b

/-! ## Result formatter (`remyxai/utils/myxboard.py`) -/

/-- `sanitize_float`: replace NaN, Infinity and -Infinity by `0.0`;
every other value (including every finite float) is returned unchanged. -/
def sanitize_float (v : JVal) : JVal :=
  match v with
  | .f (.finite q) => .f (.finite q)
  | .f _ => .f (.finite 0)
  | _ => v

/-- The per-value sanitization used in the `model_results` dict
comprehension of `format_benchmark_results_for_storage`: dict values are
sanitized one level deep, every other value is sanitized directly. -/
def benchSanitizeValue (v : JVal) : JVal :=
  match v with
  | .dict d => .dict (d.map (fun kv => (kv.1, sanitize_float kv.2)))
  | _ => sanitize_float v

/-- The `model_results` dict comprehension of
`format_benchmark_results_for_storage`: every key of `model_eval` except
`"model"`, with its value sanitized by `benchSanitizeValue`. -/
def benchModelResults (modelEval : List (String × JVal)) : List (String × JVal) :=
  (modelEval.filter (fun kv => kv.1 ≠ "model")).map
    (fun kv => (kv.1, benchSanitizeValue kv.2))

/-- `format_myxmatch_results_for_storage`: requires a dict payload with a
`"models"` key, otherwise logs and returns the empty list; each model
entry becomes one record of the internal schema. -/
def format_myxmatch_results_for_storage (evalResults : JVal) (taskName : String)
    (startTime endTime : JVal) : List JVal :=
  match evalResults with
  | .dict d =>
    match dlookup d "models" with
    | none => []
    | some ms =>
      ms.asArr.map (fun modelInfo =>
        let mi := modelInfo.asDict
        .dict [
          ("config_general", .dict [
            ("model_name", dget mi "model" .null),
            ("start_time", startTime),
            ("end_time", endTime)]),
          ("results", .dict [(taskName ++ "|general|0",
            .dict [("rank", dget mi "rank" .null)])]),
          ("details", .dict [
            ("full_prompt", dget d "prompt" (.s "")),
            ("evaluation_type", .s taskName)])])
  | _ => []

/-- `format_benchmark_results_for_storage`: requires a dict payload whose
`"benchmark"` key holds a list, otherwise logs and returns the empty
list; entries without a truthy `"model"` key are skipped. -/
def format_benchmark_results_for_storage (evalResults : JVal) (taskName : String)
    (startTime endTime : JVal) : List JVal :=
  match evalResults with
  | .dict d =>
    match dlookup d "benchmark" with
    | none => []
    | some bv =>
      match bv with
      | .arr benchmarkResults =>
        benchmarkResults.filterMap (fun modelEval =>
          let me := modelEval.asDict
          let modelName := dget me "model" .null
          if modelName.truthy then
            some (.dict [
              ("config_general", .dict [
                ("model_name", modelName),
                ("start_time", startTime),
                ("end_time", endTime)]),
              ("results", .dict (benchModelResults me)),
              ("details", .dict [
                ("evaluation_type", .s taskName),
                ("eval_tasks", dget d "eval_tasks" (.s "")),
                ("execution_time", dget d "execution_time" (.s "")),
                ("run_id", dget d "run_id" (.s ""))])])
          else none)
      | _ => []
  | _ => []

/-- `format_results_for_storage`: dispatch on the task name; an unknown
task name is logged as an error and yields the empty list. -/
def format_results_for_storage (evalResults : JVal) (taskName : String)
    (startTime endTime : JVal) : List JVal :=
  if taskName = "myxmatch" then
    format_myxmatch_results_for_storage evalResults taskName startTime endTime
  else if taskName = "benchmark" then
    format_benchmark_results_for_storage evalResults taskName startTime endTime
  else []

/-! ## Reordering models by rank -/

/-- The `ranked_models` list built by `_reorder_models_by_results`
(`remyxai/utils/myxboard.py`): the `(model, rank)` pairs of
`results.get(task_name, {}).get("models", [])`. -/
def extractRankedModels (results : List (String × JVal)) (taskName : String) :
    List (String × Int) :=
  ((dget (dget results taskName (.dict [])).asDict "models" (.arr [])).asArr).map
    (fun modelInfo =>
      (jStr (dget modelInfo.asDict "model" .null),
       jInt (dget modelInfo.asDict "rank" .null)))

/-- `_reorder_models_by_results` (`remyxai/utils/myxboard.py`):
`ranked_models.sort(key=lambda x: x[1])` is Python's stable sort by rank,
modelled by the stable `List.mergeSort`; the sorted model names are
returned. -/
def reorder_models_by_results (results : List (String × JVal)) (taskName : String) :
    List String :=
  (List.mergeSort (extractRankedModels results taskName)
    (fun a b => decide (a.2 ≤ b.2))).map Prod.fst

/-- `MyxBoard._reorder_models_by_results` (`remyxai/client/myxboard.py`):
reads `self.results["results"]` (a `KeyError`, modelled as `none`, when
that key is absent), then performs the same stable sort by rank and
replaces the board's models with the sorted model names. -/
def client_reorder_models_by_results (results : List (String × JVal))
    (taskName : String) : Option (List String) :=
  match dlookup results "results" with
  | none => none
  | some rv =>
    some ((List.mergeSort
      (((dget (dget rv.asDict taskName (.dict [])).asDict "models" (.arr [])).asArr).map
        (fun modelInfo =>
          (jStr (dget modelInfo.asDict "model" .null),
           jInt (dget modelInfo.asDict "rank" .null))))
      (fun a b => decide (a.2 ≤ b.2))).map Prod.fst)

/-! ## Job submission (`RemyxAPI.evaluate`, `run_myxmatch`) -/

/-- The `mapped_models` list built by `run_myxmatch`
(`remyxai/api/tasks.py`): each model mapped through the repo-id mapping. -/
def run_myxmatch_mapped_models (models : List String) : List String :=
  models.map tasksMapModel

/-- The comma-joined model segment of the `run_myxmatch` request URL. -/
def run_myxmatch_models_str (models : List String) : String :=
  String.intercalate "," (run_myxmatch_mapped_models models)

/-- The `EvaluationTask` enum of `remyxai/api/evaluations.py`. -/
inductive EvaluationTask where
  | myxmatch
  | lightevalArithmetic
  | lightevalTruthfulqa
deriving DecidableEq, Repr

/-- The `.value` of each `EvaluationTask` member. -/
def EvaluationTask.value : EvaluationTask → String
  | .myxmatch => "myxmatch"
  | .lightevalArithmetic => "lighteval_arithmetic"
  | .lightevalTruthfulqa => "lighteval_truthfulqa"

/-- `EvaluationTask(task_key)`: the enum member with the given value, or
a `ValueError` (`none`) for any other string. -/
def taskOfValue (v : String) : Option EvaluationTask :=
  if v = "myxmatch" then some .myxmatch
  else if v = "lighteval_arithmetic" then some .lightevalArithmetic
  else if v = "lighteval_truthfulqa" then some .lightevalTruthfulqa
  else none

/-- One `run_myxmatch` network call as issued by `RemyxAPI.evaluate`
(board name, prompt, full model list; the URL-building and model mapping
happen inside `run_myxmatch`). -/
structure SubmitCall where
  name : String
  prompt : String
  models : List String

/-- Outcome of `RemyxAPI.evaluate`: the raised error if any, the board's
`results` dict afterwards, and the network calls that were made. -/
structure EvalOutcome where
  error : Option String
  results : List (String × JVal)
  calls : List SubmitCall

/-- The task loop of `RemyxAPI.evaluate`: for a MYXMATCH task a missing
or empty prompt raises a `ValueError`; otherwise `run_myxmatch` is called
(its response given by the `oracle`) and a pending `job_status` entry is
recorded; any other task kind falls into the `pass` branch. -/
def evaluateLoop (oracle : SubmitCall → List (String × JVal))
    (boardName : String) (boardModels : List String) (prompt : Option String) :
    List EvaluationTask → List (String × JVal) → List SubmitCall → EvalOutcome
  | [], results, calls => { error := none, results := results, calls := calls }
  | task :: rest, results, calls =>
    match task with
    | .myxmatch =>
      match prompt with
      | none =>
        { error := some ("Task " ++ task.value ++ " requires a prompt.")
          results := results, calls := calls }
      | some p =>
        if p = "" then
          { error := some ("Task " ++ task.value ++ " requires a prompt.")
            results := results, calls := calls }
        else
          let call : SubmitCall :=
            { name := boardName, prompt := p, models := boardModels }
          let resp := oracle call
          let jobName := dget resp "job_name" .null
          let js := (dget results "job_status" (.dict [])).asDict
          let js2 := dinsert js task.value
            (.dict [("job_name", jobName), ("status", .s "pending")])
          let results2 := dinsert results "job_status" (.dict js2)
          evaluateLoop oracle boardName boardModels prompt rest results2
            (calls ++ [call])
    | _ => evaluateLoop oracle boardName boardModels prompt rest results calls

/-- `RemyxAPI.evaluate`: ensure the `"job_status"` key exists in the
board's results, then run the task loop. -/
def RemyxAPI.evaluate (oracle : SubmitCall → List (String × JVal))
    (boardName : String) (boardModels : List String)
    (tasks : List EvaluationTask) (prompt : Option String)
    (results : List (String × JVal)) : EvalOutcome :=
  let results0 :=
    if hasKey results "job_status" then results
    else dinsert results "job_status" (.dict [])
  evaluateLoop oracle boardName boardModels prompt tasks results0 []

/-! ## `MyxBoard.get_results` and its remote calls -/

/-- The remote service as seen by `get_results`: `get_job_status`
responses keyed by job name and `download_evaluation` payloads keyed by
task value and sanitized board name. A fixed oracle models a remote
service whose answers do not change between the calls under study. -/
structure RemoteOracle where
  jobStatus : String → List (String × JVal)
  evalResult : String → String → List (String × JVal)

/-- `MyxBoard._check_job_status`:
`get_job_status(job_name).get("status", "unknown")`. -/
def check_job_status (o : RemoteOracle) (jobName : String) : JVal :=
  dget (o.jobStatus jobName) "status" (.s "unknown")

/-- The `"job_status"` sub-dict of a results dict
(`self.results.get("job_status", {})`). -/
def jsOf (results : List (String × JVal)) : List (String × JVal) :=
  (dget results "job_status" (.dict [])).asDict

/-- `MyxBoard._fetch_evaluation_results` for a completed job: download
the evaluation (falsy payloads return `None` and cache nothing), unwrap a
`"message"` key, cache the payload under the task key, and mark the
task's `job_status` entry `"COMPLETED"`. Returns the value the method
returns together with the updated results dict. -/
def fetch_evaluation_results (o : RemoteOracle) (sanitizedName taskValue : String)
    (results : List (String × JVal)) : JVal × List (String × JVal) :=
  let evalResults := o.evalResult taskValue sanitizedName
  if evalResults.isEmpty then
    (.null, results)
  else
    let er := dget evalResults "message" (.dict evalResults)
    let results1 := dinsert results taskValue er
    let js := jsOf results1
    let ji := (dget js taskValue (.dict [])).asDict
    let js2 := dinsert js taskValue (.dict (dinsert ji "status" (.s "COMPLETED")))
    (er, dinsert results1 "job_status" (.dict js2))

/-- The `task_names`-given loop of `MyxBoard.get_results`: cached results
are returned directly; otherwise the job info is consulted, a still
running job yields a `{status, job_name}` descriptor, and a completed job
is fetched and cached. Tasks with no job info are skipped. Returns the
`task_results` output dict and the updated results dict. -/
def getResultsLoop (o : RemoteOracle) (sanitizedName : String) :
    List EvaluationTask → List (String × JVal) → List (String × JVal) →
    List (String × JVal) × List (String × JVal)
  | [], out, results => (out, results)
  | task :: rest, out, results =>
    match dlookup results task.value with
    | some v => getResultsLoop o sanitizedName rest (dinsert out task.value v) results
    | none =>
      match dlookup (jsOf results) task.value with
      | none => getResultsLoop o sanitizedName rest out results
      | some jobInfo =>
        let jobName := dget jobInfo.asDict "job_name" .null
        let status := check_job_status o (jStr jobName)
        if isCompleted status then
          let fr := fetch_evaluation_results o sanitizedName task.value results
          getResultsLoop o sanitizedName rest (dinsert out task.value fr.1) fr.2
        else
          getResultsLoop o sanitizedName rest
            (dinsert out task.value (.dict [("status", status), ("job_name", jobName)]))
            results

/-- The no-filter loop of `MyxBoard.get_results`: for every entry of the
`job_status` dict whose job is completed and whose task has no cached
result, convert the key back to an `EvaluationTask` (a `ValueError` for
unknown keys) and fetch the result. -/
def getResultsAllLoop (o : RemoteOracle) (sanitizedName : String) :
    List (String × JVal) → List (String × JVal) →
    Except String (List (String × JVal))
  | [], results => .ok results
  | (taskKey, jobInfo) :: rest, results =>
    let status := check_job_status o (jStr (dget jobInfo.asDict "job_name" .null))
    if isCompleted status && !(hasKey results taskKey) then
      match taskOfValue taskKey with
      | none => .error (taskKey ++ " is not a valid EvaluationTask")
      | some task =>
        getResultsAllLoop o sanitizedName rest
          (fetch_evaluation_results o sanitizedName task.value results).2
    else
      getResultsAllLoop o sanitizedName rest results

/-- Return value and final state of `MyxBoard.get_results`. -/
structure GetResultsOutcome where
  output : JVal
  results : List (String × JVal)

/-- The first step of `get_results`:
`if "job_status" not in self.results: self.results["job_status"] = {}`. -/
def ensureJobStatus (results : List (String × JVal)) : List (String × JVal) :=
  if hasKey results "job_status" then results
  else dinsert results "job_status" (.dict [])

/-- `MyxBoard.get_results`: initialize the `"job_status"` key if missing,
then either walk the requested tasks (a non-empty `task_names` list) and
return the `task_results` dict, or walk all tracked jobs and return the
whole results dict. `_save_updates` pushes to the remote store and leaves
local state unchanged. -/
def get_results (o : RemoteOracle) (sanitizedName : String)
    (taskNames : Option (List EvaluationTask)) (results : List (String × JVal)) :
    Except String GetResultsOutcome :=
  let results0 := ensureJobStatus results
  match taskNames with
  | some (t :: ts) =>
    let r := getResultsLoop o sanitizedName (t :: ts) [] results0
    .ok { output := .dict r.1, results := r.2 }
  | _ =>
    match getResultsAllLoop o sanitizedName (jsOf results0) results0 with
    | .error e => .error e
    | .ok results1 => .ok { output := .dict results1, results := results1 }

/-! ## Concrete example payloads used by witnesses and counterexamples -/

/-- A results dict holding ranked-match results
`[{model: "A", rank: 2}, {model: "B", rank: 1}]` under the task key. -/
def exampleMatchResults : List (String × JVal) :=
  [("myxmatch", .dict [("models", .arr [
      .dict [("model", .s "A"), ("rank", .i 2)],
      .dict [("model", .s "B"), ("rank", .i 1)]])])]

/-- A benchmark payload with a NaN metric, an Infinity metric nested one
level inside a dict-valued entry, and finite metrics. -/
def benchNaNExample : JVal :=
  .dict [("benchmark", .arr [
    .dict [("model", .s "m1"), ("acc", .f .nan),
           ("scores", .dict [("a", .f .inf), ("b", .f (.finite 1))]),
           ("count", .i 3)]])]

/-- A well-formed benchmark payload (only finite values). -/
def benchPayloadExample : JVal :=
  .dict [("benchmark", .arr [.dict [("model", .s "m1"), ("acc", .i 1)]])]

/-- A remote oracle answering every request with an empty dict. -/
def oracle0 : RemoteOracle :=
  { jobStatus := fun _ => [], evalResult := fun _ _ => [] }

/-- A remote oracle reporting every job as COMPLETED and answering every
evaluation download with a fixed myxmatch-style payload under `"message"`. -/
def oracle1 : RemoteOracle :=
  { jobStatus := fun _ => [("status", .s "COMPLETED")]
    evalResult := fun _ _ => [("message", .dict [("winner", .s "B")])] }

/-- A board-results state with one pending myxmatch job. -/
def pendingState : List (String × JVal) :=
  [("job_status", .dict [("myxmatch",
    .dict [("job_name", .s "j1"), ("status", .s "pending")])])]

/-- The job name recorded in a job-status entry value
(`job_info["job_name"]`). -/
def jobNameOf (v : JVal) : JVal := dget v.asDict "job_name" .null

/-- The (key, job name) projection of a job-status dict: the only data
the no-filter loop of `get_results` reads from its snapshot of entries. -/
def jsNames (js : List (String × JVal)) : List (String × JVal) :=
  js.map (fun e => (e.1, jobNameOf e.2))

/-! ## Helper lemmas about dict operations -/

theorem dlookup_dinsert_self (d : List (String × JVal)) (k : String) (v : JVal) :
    dlookup (dinsert d k v) k = some v := by
  induction d with
  | nil => simp [dinsert, dlookup]
  | cons hd tl ih =>
    by_cases h : hd.1 = k
    · simp [dinsert, dlookup, h]
    · simp [dinsert, dlookup, h, ih]

theorem dlookup_dinsert_ne (d : List (String × JVal)) (k k2 : String) (v : JVal)
    (h : k ≠ k2) : dlookup (dinsert d k v) k2 = dlookup d k2 := by
  induction d with
  | nil => simp [dinsert, dlookup, h]
  | cons hd tl ih =>
    by_cases h2 : hd.1 = k
    · simp [dinsert, dlookup, h2, h]
    · simp [dinsert, dlookup, h2, ih]

theorem hasKey_dinsert (d : List (String × JVal)) (k k2 : String) (v : JVal)
    (h : hasKey d k2 = true) : hasKey (dinsert d k v) k2 = true := by
  by_cases hk : k = k2
  · subst hk; simp [hasKey, dlookup_dinsert_self]
  · simpa [hasKey, dlookup_dinsert_ne d k k2 v hk] using h

/-- Every model name in the allow-list contains no slash, so the repo-id
mapping leaves it unchanged. -/
theorem clientMapModel_supported :
    ∀ m ∈ MYXMATCH_SUPPORTED_MODELS, clientMapModel m = m := by decide

/-- `_validate_models` succeeds when every model is literally in the
allow-list. -/
theorem validate_models_ok (models : List String)
    (h : ∀ m ∈ models, m ∈ MYXMATCH_SUPPORTED_MODELS) :
    validate_models models = .ok () := by
  induction models with
  | nil => rfl
  | cons m rest ih =>
    have hm : m ∈ MYXMATCH_SUPPORTED_MODELS := h m (List.mem_cons_self m rest)
    have hmap : clientMapModel m ∈ MYXMATCH_SUPPORTED_MODELS := by
      rw [clientMapModel_supported m hm]; exact hm
    have := ih (fun x hx => h x (List.mem_cons_of_mem m hx))
    simpa [validate_models, hmap] using this

/-- `_validate_models` fails with exactly the first unsupported model. -/
theorem validate_models_first_error (models : List String) (m : String)
    (h : models.find? (fun x => !(decide (clientMapModel x ∈ MYXMATCH_SUPPORTED_MODELS)))
      = some m) :
    validate_models models = .error [m] := by
  induction models with
  | nil => simp [List.find?] at h
  | cons x rest ih =>
    by_cases hx : clientMapModel x ∈ MYXMATCH_SUPPORTED_MODELS
    · rw [List.find?_cons_of_neg] at h
      · simpa [validate_models, hx] using ih h
      · simp [hx]
    · rw [List.find?_cons_of_pos] at h
      · simp only [Option.some_inj] at h
        subst h
        simp [validate_models, hx]
      · simp [hx]

/-! ## Claim theorems -/

/-- Claim C1, counterexample: with two unsupported models `"modelX"` and
`"modelY"`, board construction fails, but the validation error names only
the first unsupported entry — `"modelY"` is not named. -/
theorem c1_counterexample :
    validate_models ["modelX", "modelY"] = .error ["modelX"] ∧
    MyxBoard.init (some ["modelX", "modelY"]) "board" none = .error ["modelX"] ∧
    ("modelY" : String) ∉ (["modelX"] : List String) := by
  exact ⟨rfl, rfl, by decide⟩

/-- Claim C1 (corrected): for every model list containing at least one
unsupported model identifier, board construction fails with a validation
error, but the error names only the first unsupported entry encountered
(the model found by `find?`), not every unsupported entry. -/
theorem c1_first_unsupported_named (models : List String) (name : String)
    (existing : Option (List String × List (String × JVal))) (m : String)
    (h : models.find? (fun x => !(decide (clientMapModel x ∈ MYXMATCH_SUPPORTED_MODELS)))
      = some m) :
    MyxBoard.init (some models) name existing = .error [m] := by
  simp only [MyxBoard.init, Option.getD_some]
  rw [validate_models_first_error models m h]

/-- Witness for C1: on `["badA", "badB"]` (both unsupported) construction
errors naming exactly `"badA"`. -/
theorem c1_witness :
    MyxBoard.init (some ["badA", "badB"]) "w" none = .error ["badA"] :=
  c1_first_unsupported_named ["badA", "badB"] "w" none "badA" (by rfl)

/-- Claim C2 (confirmed): for every model list whose entries are all in
the supported allow-list, and no existing remote board, construction
succeeds and the board's `models` field is the input list unchanged. -/
theorem c2_construction_preserves_models (models : List String) (name : String)
    (h : ∀ m ∈ models, m ∈ MYXMATCH_SUPPORTED_MODELS) :
    ∃ b : MyxBoardState,
      MyxBoard.init (some models) name none = .ok b ∧ b.models = models := by
  refine ⟨{ name := name, sanitizedName := sanitize_name name, models := models,
            fromHfCollection := false, results := [], jobStatus := [] }, ?_, rfl⟩
  simp only [MyxBoard.init, Option.getD_some]
  rw [validate_models_ok models h]

/-- Witness for C2 at the model list of the repository's own test
(`test_myxboard.py`). -/
theorem c2_witness :
    ∃ b : MyxBoardState,
      MyxBoard.init (some ["Phi-3-mini-4k-instruct", "Qwen2-1.5B"])
        "test_myxboard" none = .ok b ∧
      b.models = ["Phi-3-mini-4k-instruct", "Qwen2-1.5B"] :=
  c2_construction_preserves_models ["Phi-3-mini-4k-instruct", "Qwen2-1.5B"]
    "test_myxboard" (by decide)

/-- Claim C3, counterexample: constructing a board with an empty model
list (and no external collection) is not rejected — it succeeds and the
board's models are empty. -/
theorem c3_counterexample :
    (MyxBoard.init (some []) "emptyboard" none).map (fun b => b.models) =
      .ok ([] : List String) := by
  rfl

/-- Claim C3 (corrected): the models list is not required to be non-empty
at construction: for every name, constructing a board from the empty model
list (no external collection, no existing remote board) succeeds, with
empty models; only unsupported entries reject the board. -/
theorem c3_empty_models_accepted (name : String) :
    MyxBoard.init (some []) name none =
      .ok { name := name, sanitizedName := sanitize_name name, models := [],
            fromHfCollection := false, results := [], jobStatus := [] } := by
  rfl

/-- The stored form of `benchNaNExample`: the NaN and the nested Infinity
are replaced by `0.0`, the finite values are unchanged. -/
theorem benchNaNExample_formatted :
    format_benchmark_results_for_storage benchNaNExample "benchmark" (.i 0) (.i 1) =
      [.dict [
        ("config_general", .dict [
          ("model_name", .s "m1"), ("start_time", .i 0), ("end_time", .i 1)]),
        ("results", .dict [
          ("acc", .f (.finite 0)),
          ("scores", .dict [("a", .f (.finite 0)), ("b", .f (.finite 1))]),
          ("count", .i 3)]),
        ("details", .dict [
          ("evaluation_type", .s "benchmark"), ("eval_tasks", .s ""),
          ("execution_time", .s ""), ("run_id", .s "")])]] := by
  rfl

/-- Claim C6 (confirmed): benchmark metric sanitization before storage —
NaN, Infinity and -Infinity become `0.0`; finite float values are stored
unchanged; every non-`"model"` entry of a benchmark model record appears
in the stored `model_results` with exactly this sanitization, and
dict-valued entries are sanitized one level deep (witnessed on a concrete
payload by `format_benchmark_results_for_storage`). -/
theorem c6_metric_sanitization :
    (sanitize_float (.f .nan) = .f (.finite 0) ∧
     sanitize_float (.f .inf) = .f (.finite 0) ∧
     sanitize_float (.f .ninf) = .f (.finite 0)) ∧
    (∀ q : Rat, sanitize_float (.f (.finite q)) = .f (.finite q)) ∧
    (∀ (me : List (String × JVal)) (k : String) (v : JVal),
      (k, v) ∈ me → k ≠ "model" →
      (k, benchSanitizeValue v) ∈ benchModelResults me) ∧
    (∀ d : List (String × JVal),
      benchSanitizeValue (.dict d) =
        .dict (d.map (fun kv => (kv.1, sanitize_float kv.2)))) ∧
    format_benchmark_results_for_storage benchNaNExample "benchmark" (.i 0) (.i 1) =
      [.dict [
        ("config_general", .dict [
          ("model_name", .s "m1"), ("start_time", .i 0), ("end_time", .i 1)]),
        ("results", .dict [
          ("acc", .f (.finite 0)),
          ("scores", .dict [("a", .f (.finite 0)), ("b", .f (.finite 1))]),
          ("count", .i 3)]),
        ("details", .dict [
          ("evaluation_type", .s "benchmark"), ("eval_tasks", .s ""),
          ("execution_time", .s ""), ("run_id", .s "")])]] := by
  refine ⟨⟨rfl, rfl, rfl⟩, fun q => rfl, ?_, fun d => rfl, benchNaNExample_formatted⟩
  intro me k v hmem hk
  unfold benchModelResults
  refine List.mem_map.mpr ⟨(k, v), List.mem_filter.mpr ⟨hmem, ?_⟩, rfl⟩
  simpa using hk

/-- Witness for C6: the NaN metric of a concrete record is stored as
`0.0` in the model-results dict. -/
theorem c6_witness :
    (("acc" : String), JVal.f (.finite 0)) ∈
      benchModelResults [("model", .s "m"), ("acc", .f .nan)] :=
  c6_metric_sanitization.2.2.1 [("model", .s "m"), ("acc", .f .nan)]
    "acc" (.f .nan) (by simp) (by decide)

/-- Claim C7 (confirmed): a payload that lacks the expected top-level key
for its task kind (`"models"` for ranked-match, `"benchmark"` for
benchmark) makes the formatter return the empty list — the outcome is a
value, not an exception. -/
theorem c7_missing_key_empty (d : List (String × JVal)) (taskName : String)
    (startTime endTime : JVal) :
    (dlookup d "models" = none →
      format_myxmatch_results_for_storage (.dict d) taskName startTime endTime = []) ∧
    (dlookup d "benchmark" = none →
      format_benchmark_results_for_storage (.dict d) taskName startTime endTime = []) := by
  constructor
  · intro h; simp [format_myxmatch_results_for_storage, h]
  · intro h; simp [format_benchmark_results_for_storage, h]

/-- Witness for C7 at a concrete payload with neither expected key. -/
theorem c7_witness :
    format_myxmatch_results_for_storage (.dict [("x", .null)]) "myxmatch" .null .null
      = [] ∧
    format_benchmark_results_for_storage (.dict [("x", .null)]) "benchmark" .null .null
      = [] :=
  ⟨(c7_missing_key_empty [("x", .null)] "myxmatch" .null .null).1 rfl,
   (c7_missing_key_empty [("x", .null)] "benchmark" .null .null).2 rfl⟩

/-- Claim C8, counterexample: an unknown task kind returns the very same
empty list as the recoverable missing-key case — the return value gives
the caller no way to distinguish them — even though the same payload
under its true kind carries data. -/
theorem c8_counterexample :
    format_results_for_storage benchPayloadExample "unknown_kind" (.i 0) (.i 0) =
      format_results_for_storage (.dict []) "myxmatch" (.i 0) (.i 0) ∧
    format_results_for_storage benchPayloadExample "benchmark" (.i 0) (.i 0) ≠ [] := by
  constructor
  · rfl
  · intro h
    have : format_results_for_storage benchPayloadExample "benchmark" (.i 0) (.i 0) =
        [.dict [
          ("config_general", .dict [
            ("model_name", .s "m1"), ("start_time", .i 0), ("end_time", .i 0)]),
          ("results", .dict [("acc", .i 1)]),
          ("details", .dict [
            ("evaluation_type", .s "benchmark"), ("eval_tasks", .s ""),
            ("execution_time", .s ""), ("run_id", .s "")])]] := by rfl
    rw [this] at h
    exact List.cons_ne_nil _ _ h

/-- Claim C8 (corrected): the dispatch treats an unknown task kind as a
logged error only; its return value is the empty list, the same value as
the recoverable missing-key case, so the caller cannot distinguish the
two from the result. -/
theorem c8_unknown_kind_empty (evalResults : JVal) (taskName : String)
    (startTime endTime : JVal)
    (h1 : taskName ≠ "myxmatch") (h2 : taskName ≠ "benchmark") :
    format_results_for_storage evalResults taskName startTime endTime = [] := by
  simp [format_results_for_storage, h1, h2]

/-- Witness for C8 at a concrete unknown kind. -/
theorem c8_witness :
    format_results_for_storage benchPayloadExample "classify" (.i 0) (.i 0) = [] :=
  c8_unknown_kind_empty benchPayloadExample "classify" (.i 0) (.i 0)
    (by decide) (by decide)

/-- Claim C10, counterexample: for an identifier with two slashes, both
validation and submission use the segment between the first and second
slash, not the substring after the first slash: the identifier is
accepted although the after-first-slash suffix is not in the allow-list,
and the request carries the middle segment, not that suffix. -/
theorem c10_counterexample :
    validate_models ["org/Phi-3-mini-4k-instruct/extra"] = .ok () ∧
    ("Phi-3-mini-4k-instruct/extra" : String) ∉ MYXMATCH_SUPPORTED_MODELS ∧
    run_myxmatch_mapped_models ["org/Phi-3-mini-4k-instruct/extra"] =
      ["Phi-3-mini-4k-instruct"] ∧
    ("Phi-3-mini-4k-instruct" : String) ≠ "Phi-3-mini-4k-instruct/extra" := by
  exact ⟨rfl, by decide, rfl, by decide⟩

/-- Claim C10 (corrected): for every model identifier containing a slash,
construction-time validation and job submission both use the second
slash-separated segment (the substring between the first and second
slash; equal to the substring after the slash when the identifier has
exactly one): the identifier is accepted exactly when that segment is in
the allow-list, regardless of the rest, and the `run_myxmatch` request
carries that segment, not the full identifier. -/
theorem c10_slash_mapping (m seg0 seg : String) (rest : List String)
    (hc : pyContains m '/' = true)
    (hs : pySplit '/' m = seg0 :: seg :: rest) :
    clientMapModel m = seg ∧ tasksMapModel m = seg ∧
    (validate_models [m] = .ok () ↔ seg ∈ MYXMATCH_SUPPORTED_MODELS) ∧
    run_myxmatch_mapped_models [m] = [seg] := by
  have h1 : clientMapModel m = seg := by simp [clientMapModel, hc, hs]
  have h2 : tasksMapModel m = seg := by simp [tasksMapModel, hc, hs]
  refine ⟨h1, h2, ?_, by simp [run_myxmatch_mapped_models, h2]⟩
  constructor
  · intro hok
    by_contra hmem
    simp [validate_models, h1, hmem] at hok
  · intro hmem
    simp [validate_models, h1, hmem]

/-- Witness for C10 on a Hugging Face style repo id with one slash. -/
theorem c10_witness :
    clientMapModel "meta-llama/Meta-Llama-3-8B" = "Meta-Llama-3-8B" ∧
    tasksMapModel "meta-llama/Meta-Llama-3-8B" = "Meta-Llama-3-8B" ∧
    (validate_models ["meta-llama/Meta-Llama-3-8B"] = .ok () ↔
      ("Meta-Llama-3-8B" : String) ∈ MYXMATCH_SUPPORTED_MODELS) ∧
    run_myxmatch_mapped_models ["meta-llama/Meta-Llama-3-8B"] = ["Meta-Llama-3-8B"] :=
  c10_slash_mapping "meta-llama/Meta-Llama-3-8B" "meta-llama" "Meta-Llama-3-8B" []
    (by rfl) (by rfl)

/-- The task loop of `evaluate` stops at the first MYXMATCH task when the
prompt is missing or empty: an error is raised, no network call was made,
and the results dict is returned as it was. -/
theorem evaluateLoop_no_prompt (oracle : SubmitCall → List (String × JVal))
    (boardName : String) (boardModels : List String) (prompt : Option String)
    (hp : prompt = none ∨ prompt = some "") :
    ∀ (tasks : List EvaluationTask) (results : List (String × JVal))
      (calls : List SubmitCall), EvaluationTask.myxmatch ∈ tasks →
      evaluateLoop oracle boardName boardModels prompt tasks results calls =
        { error := some ("Task " ++ EvaluationTask.myxmatch.value ++ " requires a prompt.")
          results := results, calls := calls } := by
  intro tasks
  induction tasks with
  | nil => intro results calls hmem; simp at hmem
  | cons t rest ih =>
    intro results calls hmem
    cases t with
    | myxmatch =>
      rcases hp with hp | hp <;> subst hp <;> simp [evaluateLoop]
    | lightevalArithmetic =>
      have : EvaluationTask.myxmatch ∈ rest := by
        rcases List.mem_cons.mp hmem with h | h
        · exact absurd h (by simp)
        · exact h
      simpa [evaluateLoop] using ih results calls this
    | lightevalTruthfulqa =>
      have : EvaluationTask.myxmatch ∈ rest := by
        rcases List.mem_cons.mp hmem with h | h
        · exact absurd h (by simp)
        · exact h
      simpa [evaluateLoop] using ih results calls this

/-- Claim C9 (confirmed): submitting a MYXMATCH evaluation with a missing
or empty prompt raises a validation error before any network call is
made — the call trace is empty — and the `job_status` entry for the
myxmatch task is unchanged. -/
theorem c9_missing_prompt (oracle : SubmitCall → List (String × JVal))
    (boardName : String) (boardModels : List String)
    (tasks : List EvaluationTask) (prompt : Option String)
    (results : List (String × JVal))
    (hmem : EvaluationTask.myxmatch ∈ tasks)
    (hp : prompt = none ∨ prompt = some "") :
    (RemyxAPI.evaluate oracle boardName boardModels tasks prompt results).error.isSome
      = true ∧
    (RemyxAPI.evaluate oracle boardName boardModels tasks prompt results).calls = [] ∧
    dlookup (jsOf
        (RemyxAPI.evaluate oracle boardName boardModels tasks prompt results).results)
      "myxmatch" = dlookup (jsOf results) "myxmatch" := by
  unfold RemyxAPI.evaluate
  rw [evaluateLoop_no_prompt oracle boardName boardModels prompt hp tasks _ [] hmem]
  refine ⟨rfl, rfl, ?_⟩
  by_cases h : hasKey results "job_status" = true
  · simp [h]
  · have hnone : dlookup results "job_status" = none := by
      cases hl : dlookup results "job_status" with
      | none => rfl
      | some v => exact absurd (by simp [hasKey, hl]) h
    simp [h, jsOf, dget, dlookup_dinsert_self, hnone, JVal.asDict]

/-- Witness for C9: a single myxmatch task with no prompt. -/
theorem c9_witness :
    (RemyxAPI.evaluate (fun _ => []) "b" ["Qwen2-1.5B"] [.myxmatch] none
      pendingState).error.isSome = true ∧
    (RemyxAPI.evaluate (fun _ => []) "b" ["Qwen2-1.5B"] [.myxmatch] none
      pendingState).calls = [] ∧
    dlookup (jsOf (RemyxAPI.evaluate (fun _ => []) "b" ["Qwen2-1.5B"] [.myxmatch] none
      pendingState).results) "myxmatch" = dlookup (jsOf pendingState) "myxmatch" :=
  c9_missing_prompt (fun _ => []) "b" ["Qwen2-1.5B"] [.myxmatch] none pendingState
    (by simp) (Or.inl rfl)

/-- The by-rank comparator used to model Python's stable sort. -/
theorem rankLe_trans (a b c : String × Int)
    (h1 : (fun x y : String × Int => decide (x.2 ≤ y.2)) a b = true)
    (h2 : (fun x y : String × Int => decide (x.2 ≤ y.2)) b c = true) :
    (fun x y : String × Int => decide (x.2 ≤ y.2)) a c = true := by
  simp only [decide_eq_true_eq] at h1 h2 ⊢
  omega

theorem rankLe_total (a b : String × Int) :
    ((fun x y : String × Int => decide (x.2 ≤ y.2)) a b ||
     (fun x y : String × Int => decide (x.2 ≤ y.2)) b a) = true := by
  simp only [Bool.or_eq_true, decide_eq_true_eq]
  omega

/-- Claim C4 (confirmed): reordering by rank. The reordered model list is
the projection of a list that is a permutation of the extracted
`(model, rank)` pairs, sorted ascending by rank, with ties keeping the
original order (every by-rank-ordered pair of entries keeps its relative
order — a stable sort); and on the spec's concrete example with results
`[{model:"A",rank:2},{model:"B",rank:1}]` the models become `["B","A"]`,
for the utils function and for the board method alike. -/
theorem c4_reorder_by_rank :
    (∀ (results : List (String × JVal)) (taskName : String),
      ∃ sorted : List (String × Int),
        reorder_models_by_results results taskName = sorted.map Prod.fst ∧
        sorted.Perm (extractRankedModels results taskName) ∧
        sorted.Pairwise (fun a b => a.2 ≤ b.2) ∧
        (∀ a b : String × Int, a.2 ≤ b.2 →
          [a, b].Sublist (extractRankedModels results taskName) →
          [a, b].Sublist sorted)) ∧
    reorder_models_by_results exampleMatchResults "myxmatch" = ["B", "A"] ∧
    client_reorder_models_by_results [("results", .dict exampleMatchResults)]
      "myxmatch" = some ["B", "A"] := by
  refine ⟨?_, ?_, ?_⟩
  · intro results taskName
    refine ⟨List.mergeSort (extractRankedModels results taskName)
      (fun a b => decide (a.2 ≤ b.2)), rfl, List.mergeSort_perm _ _, ?_, ?_⟩
    · have h := List.sorted_mergeSort rankLe_trans rankLe_total
        (extractRankedModels results taskName)
      exact h.imp (fun hab => by simpa using hab)
    · intro a b hab hsub
      exact List.pair_sublist_mergeSort rankLe_trans rankLe_total
        (by simpa using hab) hsub
  · simp [reorder_models_by_results, extractRankedModels, exampleMatchResults,
      dget, dlookup, JVal.asDict, JVal.asArr, jStr, jInt, List.mergeSort, List.merge]
  · simp [client_reorder_models_by_results, exampleMatchResults,
      dget, dlookup, JVal.asDict, JVal.asArr, jStr, jInt, List.mergeSort, List.merge]

/-- Witness for C4: the spec's concrete reordering example, obtained from
the claim theorem. -/
theorem c4_witness :
    reorder_models_by_results exampleMatchResults "myxmatch" = ["B", "A"] :=
  c4_reorder_by_rank.2.1

/-! ## Helper lemmas for the `get_results` idempotence analysis -/

theorem EvaluationTask.value_ne_job_status (t : EvaluationTask) :
    t.value ≠ "job_status" := by
  cases t <;> decide

theorem taskOfValue_some (k : String) (t : EvaluationTask)
    (h : taskOfValue k = some t) : t.value = k := by
  unfold taskOfValue at h
  by_cases h1 : k = "myxmatch"
  · simp [h1] at h; subst h1; rw [← h]; rfl
  · by_cases h2 : k = "lighteval_arithmetic"
    · simp [h1, h2] at h; subst h2; rw [← h]; rfl
    · by_cases h3 : k = "lighteval_truthfulqa"
      · simp [h1, h2, h3] at h; subst h3; rw [← h]; rfl
      · simp [h1, h2, h3] at h

theorem jsOf_dinsert_ne (r : List (String × JVal)) (k : String) (v : JVal)
    (h : k ≠ "job_status") : jsOf (dinsert r k v) = jsOf r := by
  unfold jsOf dget
  rw [dlookup_dinsert_ne r k "job_status" v h]

theorem jsOf_dinsert_js (r : List (String × JVal)) (js : List (String × JVal)) :
    jsOf (dinsert r "job_status" (.dict js)) = js := by
  unfold jsOf dget
  rw [dlookup_dinsert_self]
  rfl

theorem ensureJobStatus_hasKey (r : List (String × JVal)) :
    hasKey (ensureJobStatus r) "job_status" = true := by
  unfold ensureJobStatus
  by_cases h : hasKey r "job_status" = true
  · rw [if_pos h]; exact h
  · rw [if_neg h]
    simp [hasKey, dlookup_dinsert_self]

theorem ensureJobStatus_of_hasKey (r : List (String × JVal))
    (h : hasKey r "job_status" = true) : ensureJobStatus r = r := by
  simp [ensureJobStatus, h]

theorem hasKey_of_mem (d : List (String × JVal)) (e : String × JVal)
    (h : e ∈ d) : hasKey d e.1 = true := by
  induction d with
  | nil => simp at h
  | cons hd tl ih =>
    by_cases hk : hd.1 = e.1
    · simp [hasKey, dlookup, hk]
    · rcases List.mem_cons.mp h with h1 | h1
      · subst h1; simp at hk
      · simpa [hasKey, dlookup, hk] using ih h1

/-! Effect of `_fetch_evaluation_results` on the results dict. -/

theorem fetch_empty (o : RemoteOracle) (sn tv : String) (r : List (String × JVal))
    (h : (o.evalResult tv sn).isEmpty = true) :
    fetch_evaluation_results o sn tv r = (.null, r) := by
  simp [fetch_evaluation_results, h]

theorem fetch_hasKey_mono (o : RemoteOracle) (sn tv : String)
    (r : List (String × JVal)) (k : String) (h : hasKey r k = true) :
    hasKey (fetch_evaluation_results o sn tv r).2 k = true := by
  unfold fetch_evaluation_results
  by_cases he : (o.evalResult tv sn).isEmpty = true
  · simpa [he] using h
  · simp only [he, Bool.false_eq_true, if_false]
    exact hasKey_dinsert _ _ _ _ (hasKey_dinsert _ _ _ _ h)

theorem fetch_preserves_dlookup_ne (o : RemoteOracle) (sn tv : String)
    (r : List (String × JVal)) (k : String) (h1 : k ≠ tv) (h2 : k ≠ "job_status") :
    dlookup (fetch_evaluation_results o sn tv r).2 k = dlookup r k := by
  unfold fetch_evaluation_results
  by_cases he : (o.evalResult tv sn).isEmpty = true
  · simp [he]
  · simp only [he, Bool.false_eq_true, if_false]
    rw [dlookup_dinsert_ne _ _ _ _ (fun hh => h2 hh.symm),
        dlookup_dinsert_ne _ _ _ _ (fun hh => h1 hh.symm)]

theorem fetch_preserves_jsEntry_ne (o : RemoteOracle) (sn tv : String)
    (r : List (String × JVal)) (k : String) (htv : tv ≠ "job_status") (h : k ≠ tv) :
    dlookup (jsOf (fetch_evaluation_results o sn tv r).2) k = dlookup (jsOf r) k := by
  unfold fetch_evaluation_results
  by_cases he : (o.evalResult tv sn).isEmpty = true
  · simp [he]
  · simp only [he, Bool.false_eq_true, if_false]
    rw [jsOf_dinsert_js, dlookup_dinsert_ne _ _ _ _ (fun hh => h hh.symm),
        jsOf_dinsert_ne _ _ _ htv]

theorem fetch_self_cached (o : RemoteOracle) (sn tv : String)
    (r : List (String × JVal)) (htv : tv ≠ "job_status")
    (he : (o.evalResult tv sn).isEmpty = false) :
    dlookup (fetch_evaluation_results o sn tv r).2 tv =
      some (dget (o.evalResult tv sn) "message" (.dict (o.evalResult tv sn))) := by
  unfold fetch_evaluation_results
  simp only [he, Bool.false_eq_true, if_false]
  rw [dlookup_dinsert_ne _ _ _ _ (fun hh => htv hh.symm), dlookup_dinsert_self]

theorem fetch_out_nonempty (o : RemoteOracle) (sn tv : String)
    (r : List (String × JVal)) (he : (o.evalResult tv sn).isEmpty = false) :
    (fetch_evaluation_results o sn tv r).1 =
      dget (o.evalResult tv sn) "message" (.dict (o.evalResult tv sn)) := by
  simp [fetch_evaluation_results, he]

theorem getResultsLoop_hasKey_mono (o : RemoteOracle) (sn : String) :
    ∀ (tasks : List EvaluationTask) (out r : List (String × JVal)) (k : String),
      hasKey r k = true → hasKey (getResultsLoop o sn tasks out r).2 k = true := by
  intro tasks
  induction tasks with
  | nil => intro out r k h; simpa [getResultsLoop] using h
  | cons t rest ih =>
    intro out r k h
    simp only [getResultsLoop]
    cases hc : dlookup r t.value with
    | some v => exact ih _ _ _ h
    | none =>
      cases hj : dlookup (jsOf r) t.value with
      | none => exact ih _ _ _ h
      | some jobInfo =>
        by_cases hs : isCompleted (check_job_status o
            (jStr (dget jobInfo.asDict "job_name" .null))) = true
        · simp only [hs, if_true]
          exact ih _ _ _ (fetch_hasKey_mono o sn t.value r k h)
        · simp only [Bool.not_eq_true] at hs
          simp only [hs, Bool.false_eq_true, if_false]
          exact ih _ _ _ h

theorem getResultsLoop_preserves_present (o : RemoteOracle) (sn : String) :
    ∀ (tasks : List EvaluationTask) (out r : List (String × JVal))
      (k : String) (v : JVal), k ≠ "job_status" → dlookup r k = some v →
      dlookup (getResultsLoop o sn tasks out r).2 k = some v := by
  intro tasks
  induction tasks with
  | nil => intro out r k v _ h; simpa [getResultsLoop] using h
  | cons t rest ih =>
    intro out r k v hk h
    simp only [getResultsLoop]
    cases hc : dlookup r t.value with
    | some w => exact ih _ _ _ _ hk h
    | none =>
      cases hj : dlookup (jsOf r) t.value with
      | none => exact ih _ _ _ _ hk h
      | some jobInfo =>
        by_cases hs : isCompleted (check_job_status o
            (jStr (dget jobInfo.asDict "job_name" .null))) = true
        · simp only [hs, if_true]
          have hne : k ≠ t.value := by
            intro he; rw [he] at h; rw [h] at hc; exact Option.noConfusion hc
          refine ih _ _ _ _ hk ?_
          rw [fetch_preserves_dlookup_ne o sn t.value r k hne hk]
          exact h
        · simp only [Bool.not_eq_true] at hs
          simp only [hs, Bool.false_eq_true, if_false]
          exact ih _ _ _ _ hk h

theorem getResultsLoop_preserves_pending (o : RemoteOracle) (sn : String) :
    ∀ (tasks : List EvaluationTask) (out r : List (String × JVal))
      (tv : String) (ji : JVal), tv ≠ "job_status" →
      dlookup r tv = none → dlookup (jsOf r) tv = some ji →
      (isCompleted (check_job_status o (jStr (dget ji.asDict "job_name" .null))) = false
        ∨ (o.evalResult tv sn).isEmpty = true) →
      dlookup (getResultsLoop o sn tasks out r).2 tv = none ∧
      dlookup (jsOf (getResultsLoop o sn tasks out r).2) tv = some ji := by
  intro tasks
  induction tasks with
  | nil =>
    intro out r tv ji _ h1 h2 _
    simpa [getResultsLoop] using ⟨h1, h2⟩
  | cons t rest ih =>
    intro out r tv ji htv h1 h2 hcase
    simp only [getResultsLoop]
    cases hc : dlookup r t.value with
    | some w => exact ih _ _ _ _ htv h1 h2 hcase
    | none =>
      cases hj : dlookup (jsOf r) t.value with
      | none => exact ih _ _ _ _ htv h1 h2 hcase
      | some jobInfo =>
        by_cases hs : isCompleted (check_job_status o
            (jStr (dget jobInfo.asDict "job_name" .null))) = true
        · simp only [hs, if_true]
          by_cases he : (o.evalResult t.value sn).isEmpty = true
          · rw [fetch_empty o sn t.value r he]
            exact ih _ _ _ _ htv h1 h2 hcase
          · have hne : t.value ≠ tv := by
              intro heq
              rw [heq] at hj
              rw [hj] at h2
              have hji : jobInfo = ji := by
                simpa using h2
              subst hji
              rcases hcase with hcase | hcase
              · rw [hs] at hcase; exact Bool.noConfusion hcase
              · rw [heq] at he; exact he hcase
            refine ih _ _ _ _ htv ?_ ?_ hcase
            · rw [fetch_preserves_dlookup_ne o sn t.value r tv
                (fun hh => hne hh.symm) htv]
              exact h1
            · rw [fetch_preserves_jsEntry_ne o sn t.value r tv
                (EvaluationTask.value_ne_job_status t) (fun hh => hne hh.symm)]
              exact h2
        · simp only [Bool.not_eq_true] at hs
          simp only [hs, Bool.false_eq_true, if_false]
          exact ih _ _ _ _ htv h1 h2 hcase

theorem getResultsLoop_preserves_absent (o : RemoteOracle) (sn : String) :
    ∀ (tasks : List EvaluationTask) (out r : List (String × JVal)) (tv : String),
      tv ≠ "job_status" → dlookup r tv = none → dlookup (jsOf r) tv = none →
      dlookup (getResultsLoop o sn tasks out r).2 tv = none ∧
      dlookup (jsOf (getResultsLoop o sn tasks out r).2) tv = none := by
  intro tasks
  induction tasks with
  | nil =>
    intro out r tv _ h1 h2
    simpa [getResultsLoop] using ⟨h1, h2⟩
  | cons t rest ih =>
    intro out r tv htv h1 h2
    simp only [getResultsLoop]
    cases hc : dlookup r t.value with
    | some w => exact ih _ _ _ htv h1 h2
    | none =>
      cases hj : dlookup (jsOf r) t.value with
      | none => exact ih _ _ _ htv h1 h2
      | some jobInfo =>
        by_cases hs : isCompleted (check_job_status o
            (jStr (dget jobInfo.asDict "job_name" .null))) = true
        · simp only [hs, if_true]
          have hne : t.value ≠ tv := by
            intro heq
            rw [heq] at hj
            rw [hj] at h2
            exact Option.noConfusion h2
          refine ih _ _ _ htv ?_ ?_
          · rw [fetch_preserves_dlookup_ne o sn t.value r tv
              (fun hh => hne hh.symm) htv]
            exact h1
          · rw [fetch_preserves_jsEntry_ne o sn t.value r tv
              (EvaluationTask.value_ne_job_status t) (fun hh => hne hh.symm)]
            exact h2
        · simp only [Bool.not_eq_true] at hs
          simp only [hs, Bool.false_eq_true, if_false]
          exact ih _ _ _ htv h1 h2

/-- Running the filtered `get_results` loop a second time, from the state
the first run produced, returns the same output dict and changes nothing. -/
theorem getResultsLoop_fixpoint (o : RemoteOracle) (sn : String) :
    ∀ (tasks : List EvaluationTask) (out r out1 s1 : List (String × JVal)),
      getResultsLoop o sn tasks out r = (out1, s1) →
      getResultsLoop o sn tasks out s1 = (out1, s1) := by
  intro tasks
  induction tasks with
  | nil =>
    intro out r out1 s1 h
    simp only [getResultsLoop] at h ⊢
    injection h with h1 h2
    subst h1; subst h2
    rfl
  | cons t rest ih =>
    intro out r out1 s1 h
    cases hc : dlookup r t.value with
    | some v =>
      simp only [getResultsLoop, hc] at h
      have hs1 : dlookup s1 t.value = some v := by
        have hp := getResultsLoop_preserves_present o sn rest (dinsert out t.value v) r
          t.value v (EvaluationTask.value_ne_job_status t) hc
        rw [h] at hp
        exact hp
      simp only [getResultsLoop, hs1]
      exact ih _ _ _ _ h
    | none =>
      cases hj : dlookup (jsOf r) t.value with
      | none =>
        simp only [getResultsLoop, hc, hj] at h
        have habs := getResultsLoop_preserves_absent o sn rest out r t.value
          (EvaluationTask.value_ne_job_status t) hc hj
        rw [h] at habs
        simp only [getResultsLoop, habs.1, habs.2]
        exact ih _ _ _ _ h
      | some jobInfo =>
        by_cases hsC : isCompleted (check_job_status o
            (jStr (dget jobInfo.asDict "job_name" .null))) = true
        · by_cases he : (o.evalResult t.value sn).isEmpty = true
          · simp only [getResultsLoop, hc, hj] at h
            rw [if_pos hsC, fetch_empty o sn t.value r he] at h
            have h' : getResultsLoop o sn rest (dinsert out t.value JVal.null) r
                = (out1, s1) := h
            have hpend := getResultsLoop_preserves_pending o sn rest
              (dinsert out t.value JVal.null) r t.value jobInfo
              (EvaluationTask.value_ne_job_status t) hc hj (Or.inr he)
            rw [h'] at hpend
            simp only [getResultsLoop, hpend.1, hpend.2]
            rw [if_pos hsC, fetch_empty o sn t.value s1 he]
            exact ih _ _ _ _ h'
          · have heF : (o.evalResult t.value sn).isEmpty = false := by
              simpa using he
            simp only [getResultsLoop, hc, hj] at h
            rw [if_pos hsC] at h
            have h' : getResultsLoop o sn rest
                (dinsert out t.value (fetch_evaluation_results o sn t.value r).1)
                (fetch_evaluation_results o sn t.value r).2 = (out1, s1) := h
            have hcache := fetch_self_cached o sn t.value r
              (EvaluationTask.value_ne_job_status t) heF
            have hs1c : dlookup s1 t.value =
                some (dget (o.evalResult t.value sn) "message"
                  (.dict (o.evalResult t.value sn))) := by
              have hp := getResultsLoop_preserves_present o sn rest
                (dinsert out t.value (fetch_evaluation_results o sn t.value r).1)
                (fetch_evaluation_results o sn t.value r).2
                t.value _ (EvaluationTask.value_ne_job_status t) hcache
              rw [h'] at hp
              exact hp
            simp only [getResultsLoop, hs1c]
            rw [fetch_out_nonempty o sn t.value r heF] at h'
            exact ih _ _ _ _ h'
        · have hsF : isCompleted (check_job_status o
              (jStr (dget jobInfo.asDict "job_name" .null))) = false := by
            simpa using hsC
          simp only [getResultsLoop, hc, hj] at h
          rw [if_neg hsC] at h
          have h' : getResultsLoop o sn rest
              (dinsert out t.value (.dict [
                ("status", check_job_status o (jStr (dget jobInfo.asDict "job_name" .null))),
                ("job_name", dget jobInfo.asDict "job_name" .null)])) r = (out1, s1) := h
          have hpend := getResultsLoop_preserves_pending o sn rest
            (dinsert out t.value (.dict [
              ("status", check_job_status o (jStr (dget jobInfo.asDict "job_name" .null))),
              ("job_name", dget jobInfo.asDict "job_name" .null)])) r t.value jobInfo
            (EvaluationTask.value_ne_job_status t) hc hj (Or.inl hsF)
          rw [h'] at hpend
          simp only [getResultsLoop, hpend.1, hpend.2]
          rw [if_neg hsC]
          exact ih _ _ _ _ h'

theorem hasKey_congr_jsNames : ∀ (js1 js2 : List (String × JVal)) (k : String),
    jsNames js1 = jsNames js2 → hasKey js1 k = hasKey js2 k := by
  intro js1
  induction js1 with
  | nil =>
    intro js2 k h
    cases js2 with
    | nil => rfl
    | cons b m => simp [jsNames] at h
  | cons a l ih =>
    intro js2 k h
    cases js2 with
    | nil => simp [jsNames] at h
    | cons b m =>
      simp only [jsNames, List.map_cons, List.cons.injEq, Prod.mk.injEq] at h
      obtain ⟨⟨hk, _⟩, htl⟩ := h
      simp only [hasKey, dlookup, ← hk]
      by_cases hak : a.1 = k
      · rw [if_pos hak, if_pos hak]
        rfl
      · rw [if_neg hak, if_neg hak]
        exact ih m k htl

theorem jsNames_dinsert_same : ∀ (js : List (String × JVal)) (k : String) (vi nv : JVal),
    dlookup js k = some vi → jobNameOf nv = jobNameOf vi →
    jsNames (dinsert js k nv) = jsNames js := by
  intro js
  induction js with
  | nil => intro k vi nv h _; simp [dlookup] at h
  | cons a l ih =>
    intro k vi nv h hn
    obtain ⟨a1, a2⟩ := a
    by_cases hak : a1 = k
    · have hvi : a2 = vi := by simpa [dlookup, hak] using h
      subst hvi
      simp [dinsert, hak, jsNames, hn]
    · have h' : dlookup l k = some vi := by simpa [dlookup, hak] using h
      simp only [dinsert]
      rw [if_neg hak]
      simp only [jsNames, List.map_cons]
      have hrec := ih k vi nv h' hn
      simp only [jsNames] at hrec
      rw [hrec]

theorem fetch_jsNames (o : RemoteOracle) (sn tv : String) (r : List (String × JVal))
    (htv : tv ≠ "job_status") (hk : hasKey (jsOf r) tv = true) :
    jsNames (jsOf (fetch_evaluation_results o sn tv r).2) = jsNames (jsOf r) := by
  unfold fetch_evaluation_results
  by_cases he : (o.evalResult tv sn).isEmpty = true
  · simp [he]
  · simp only [he, Bool.false_eq_true, if_false]
    rw [jsOf_dinsert_js, jsOf_dinsert_ne r tv _ htv]
    obtain ⟨vi, hvi⟩ : ∃ vi, dlookup (jsOf r) tv = some vi := by
      cases hl : dlookup (jsOf r) tv with
      | none => rw [hasKey, hl] at hk; exact Bool.noConfusion hk
      | some v => exact ⟨v, rfl⟩
    apply jsNames_dinsert_same (jsOf r) tv vi _ hvi
    have hdg : dget (jsOf r) tv (.dict []) = vi := by simp [dget, hvi]
    rw [hdg]
    unfold jobNameOf dget
    simp only [JVal.asDict]
    rw [dlookup_dinsert_ne _ _ _ _ (by decide : ("status" : String) ≠ "job_name")]

theorem getResultsAllLoop_hasKey_mono (o : RemoteOracle) (sn : String) :
    ∀ (entries : List (String × JVal)) (r s1 : List (String × JVal)) (k : String),
      getResultsAllLoop o sn entries r = .ok s1 → hasKey r k = true →
      hasKey s1 k = true := by
  intro entries
  induction entries with
  | nil =>
    intro r s1 k h hk
    simp only [getResultsAllLoop] at h
    injection h with h
    subst h
    exact hk
  | cons a rest ih =>
    intro r s1 k h hk
    obtain ⟨ak, av⟩ := a
    simp only [getResultsAllLoop] at h
    by_cases hcond : (isCompleted (check_job_status o
        (jStr (dget av.asDict "job_name" JVal.null))) && !hasKey r ak) = true
    · rw [if_pos hcond] at h
      cases ht : taskOfValue ak with
      | none =>
        rw [ht] at h
        exact Except.noConfusion h
      | some task =>
        rw [ht] at h
        have h' : getResultsAllLoop o sn rest
            (fetch_evaluation_results o sn task.value r).2 = .ok s1 := h
        exact ih _ _ _ h' (fetch_hasKey_mono o sn task.value r k hk)
    · rw [if_neg hcond] at h
      exact ih _ _ _ h hk

theorem getResultsAllLoop_congr (o : RemoteOracle) (sn : String) :
    ∀ (entries entries2 : List (String × JVal)) (r : List (String × JVal)),
      jsNames entries = jsNames entries2 →
      getResultsAllLoop o sn entries r = getResultsAllLoop o sn entries2 r := by
  intro entries
  induction entries with
  | nil =>
    intro e2 r h
    cases e2 with
    | nil => rfl
    | cons b m => simp [jsNames] at h
  | cons a l ih =>
    intro e2 r h
    cases e2 with
    | nil => simp [jsNames] at h
    | cons b m =>
      obtain ⟨ak, av⟩ := a
      obtain ⟨bk, bv⟩ := b
      simp only [jsNames, List.map_cons, List.cons.injEq, Prod.mk.injEq] at h
      obtain ⟨⟨hk, hn⟩, htl⟩ := h
      subst hk
      unfold jobNameOf at hn
      simp only [getResultsAllLoop]
      rw [hn]
      by_cases hcond : (isCompleted (check_job_status o
          (jStr (dget bv.asDict "job_name" JVal.null))) && !hasKey r ak) = true
      · rw [if_pos hcond, if_pos hcond]
        cases taskOfValue ak with
        | none => rfl
        | some task =>
          exact ih m _ htl
      · rw [if_neg hcond, if_neg hcond]
        exact ih m r htl

theorem getResultsAllLoop_jsNames (o : RemoteOracle) (sn : String) :
    ∀ (entries : List (String × JVal)) (r s1 : List (String × JVal)),
      getResultsAllLoop o sn entries r = .ok s1 →
      (∀ e ∈ entries, hasKey (jsOf r) e.1 = true) →
      jsNames (jsOf s1) = jsNames (jsOf r) := by
  intro entries
  induction entries with
  | nil =>
    intro r s1 h _
    simp only [getResultsAllLoop] at h
    injection h with h
    subst h
    rfl
  | cons a rest ih =>
    intro r s1 h hmem
    obtain ⟨ak, av⟩ := a
    simp only [getResultsAllLoop] at h
    by_cases hcond : (isCompleted (check_job_status o
        (jStr (dget av.asDict "job_name" JVal.null))) && !hasKey r ak) = true
    · rw [if_pos hcond] at h
      cases ht : taskOfValue ak with
      | none =>
        rw [ht] at h
        exact Except.noConfusion h
      | some task =>
        rw [ht] at h
        have h' : getResultsAllLoop o sn rest
            (fetch_evaluation_results o sn task.value r).2 = .ok s1 := h
        have htv : task.value = ak := taskOfValue_some ak task ht
        have hkak : hasKey (jsOf r) task.value = true := by
          rw [htv]
          exact hmem (ak, av) (List.mem_cons_self _ _)
        have hstep := fetch_jsNames o sn task.value r
          (EvaluationTask.value_ne_job_status task) hkak
        have hrest : ∀ e ∈ rest,
            hasKey (jsOf (fetch_evaluation_results o sn task.value r).2) e.1 = true := by
          intro e he
          rw [hasKey_congr_jsNames _ _ e.1 hstep]
          exact hmem e (List.mem_cons_of_mem _ he)
        rw [ih _ _ h' hrest, hstep]
    · rw [if_neg hcond] at h
      exact ih _ _ h (fun e he => hmem e (List.mem_cons_of_mem _ he))

theorem getResultsAllLoop_fixpoint (o : RemoteOracle) (sn : String) :
    ∀ (entries : List (String × JVal)) (r s1 : List (String × JVal)),
      getResultsAllLoop o sn entries r = .ok s1 →
      getResultsAllLoop o sn entries s1 = .ok s1 := by
  intro entries
  induction entries with
  | nil =>
    intro r s1 h
    simp only [getResultsAllLoop] at h
    injection h with h
    subst h
    rfl
  | cons a rest ih =>
    intro r s1 h
    obtain ⟨ak, av⟩ := a
    simp only [getResultsAllLoop] at h ⊢
    by_cases hcond : (isCompleted (check_job_status o
        (jStr (dget av.asDict "job_name" JVal.null))) && !hasKey r ak) = true
    · rw [if_pos hcond] at h
      cases ht : taskOfValue ak with
      | none =>
        rw [ht] at h
        exact Except.noConfusion h
      | some task =>
        rw [ht] at h
        have h' : getResultsAllLoop o sn rest
            (fetch_evaluation_results o sn task.value r).2 = .ok s1 := h
        have ihh := ih _ _ h'
        have hcompleted : isCompleted (check_job_status o
            (jStr (dget av.asDict "job_name" JVal.null))) = true := by
          have hboth := hcond
          rw [Bool.and_eq_true] at hboth
          exact hboth.1
        have htv : task.value = ak := taskOfValue_some ak task ht
        by_cases hk1 : hasKey s1 ak = true
        · rw [if_neg (by simp [hcompleted, hk1] : ¬(isCompleted (check_job_status o
            (jStr (dget av.asDict "job_name" JVal.null))) && !hasKey s1 ak) = true)]
          exact ihh
        · have hkF : hasKey s1 ak = false := by simpa using hk1
          rw [if_pos (by simp [hcompleted, hkF])]
          by_cases he : (o.evalResult task.value sn).isEmpty = true
          · show getResultsAllLoop o sn rest
              (fetch_evaluation_results o sn task.value s1).2 = .ok s1
            rw [fetch_empty o sn task.value s1 he]
            exact ihh
          · exfalso
            have heF : (o.evalResult task.value sn).isEmpty = false := by simpa using he
            have hf := fetch_self_cached o sn task.value r
              (EvaluationTask.value_ne_job_status task) heF
            have hck : hasKey (fetch_evaluation_results o sn task.value r).2 ak = true := by
              rw [← htv]
              simp [hasKey, hf]
            have := getResultsAllLoop_hasKey_mono o sn rest _ _ ak h' hck
            rw [this] at hkF
            exact Bool.noConfusion hkF
    · rw [if_neg hcond] at h
      have ihh := ih _ _ h
      by_cases hcomp : isCompleted (check_job_status o
          (jStr (dget av.asDict "job_name" JVal.null))) = true
      · have hkr : hasKey r ak = true := by
          cases hkr : hasKey r ak with
          | true => rfl
          | false => exact absurd (by simp [hcomp, hkr]) hcond
        have hk1 : hasKey s1 ak = true :=
          getResultsAllLoop_hasKey_mono o sn rest r s1 ak h hkr
        rw [if_neg (by simp [hk1] : ¬(isCompleted (check_job_status o
          (jStr (dget av.asDict "job_name" JVal.null))) && !hasKey s1 ak) = true)]
        exact ihh
      · have hcompF : isCompleted (check_job_status o
            (jStr (dget av.asDict "job_name" JVal.null))) = false := by simpa using hcomp
        rw [if_neg (by simp [hcompF] : ¬(isCompleted (check_job_status o
          (jStr (dget av.asDict "job_name" JVal.null))) && !hasKey s1 ak) = true)]
        exact ihh

/-- After one no-filter run of `get_results`, a second run changes
nothing: the job-status key is present, and the all-tasks loop (over the
new snapshot of entries) is a no-op. -/
theorem getResultsAll_second_run (o : RemoteOracle) (sn : String)
    (r0 s1 : List (String × JVal))
    (hk0 : hasKey r0 "job_status" = true)
    (h : getResultsAllLoop o sn (jsOf r0) r0 = .ok s1) :
    ensureJobStatus s1 = s1 ∧ getResultsAllLoop o sn (jsOf s1) s1 = .ok s1 := by
  have hk1 : hasKey s1 "job_status" = true :=
    getResultsAllLoop_hasKey_mono o sn (jsOf r0) r0 s1 "job_status" h hk0
  refine ⟨ensureJobStatus_of_hasKey s1 hk1, ?_⟩
  have hmem : ∀ e ∈ jsOf r0, hasKey (jsOf r0) e.1 = true :=
    fun e he => hasKey_of_mem (jsOf r0) e he
  have hnames : jsNames (jsOf s1) = jsNames (jsOf r0) :=
    getResultsAllLoop_jsNames o sn (jsOf r0) r0 s1 h hmem
  rw [getResultsAllLoop_congr o sn (jsOf s1) (jsOf r0) s1 hnames]
  exact getResultsAllLoop_fixpoint o sn (jsOf r0) r0 s1 h

/-- Claim C5, counterexample: `get_results` is not a pure read. On a
board whose results dict is empty, a single read (no task filter) inserts
the `"job_status"` key: the state after the read differs from the state
before it. -/
theorem c5_counterexample :
    get_results oracle0 "board" none [] =
      .ok { output := .dict [("job_status", .dict [])]
            results := [("job_status", .dict [])] } ∧
    [("job_status", JVal.dict [])] ≠ ([] : List (String × JVal)) := by
  exact ⟨rfl, by simp⟩

/-- Claim C5 (corrected): with the remote service unchanged between the
two calls (a fixed oracle), calling `get_results` twice in succession
returns identical output both times and the second call changes no state
— but the first call may mutate board state (it initializes the
`"job_status"` key, caches newly completed results, and marks their jobs
COMPLETED), so a read alone is not mutation-free. -/
theorem c5_get_results_idempotent (o : RemoteOracle) (sn : String)
    (taskNames : Option (List EvaluationTask)) (results : List (String × JVal))
    (out1 : JVal) (s1 : List (String × JVal))
    (h : get_results o sn taskNames results = .ok { output := out1, results := s1 }) :
    get_results o sn taskNames s1 = .ok { output := out1, results := s1 } := by
  rcases taskNames with _ | tasks
  · simp only [get_results] at h ⊢
    cases hall : getResultsAllLoop o sn (jsOf (ensureJobStatus results))
        (ensureJobStatus results) with
    | error e =>
      rw [hall] at h
      exact Except.noConfusion h
    | ok r1 =>
      rw [hall] at h
      simp only [Except.ok.injEq, GetResultsOutcome.mk.injEq] at h
      obtain ⟨ho, hs⟩ := h
      subst ho
      subst hs
      obtain ⟨he, hfix⟩ := getResultsAll_second_run o sn (ensureJobStatus results) r1
        (ensureJobStatus_hasKey results) hall
      rw [he, hfix]
  · rcases tasks with _ | ⟨t, ts⟩
    · simp only [get_results] at h ⊢
      cases hall : getResultsAllLoop o sn (jsOf (ensureJobStatus results))
          (ensureJobStatus results) with
      | error e =>
        rw [hall] at h
        exact Except.noConfusion h
      | ok r1 =>
        rw [hall] at h
        simp only [Except.ok.injEq, GetResultsOutcome.mk.injEq] at h
        obtain ⟨ho, hs⟩ := h
        subst ho
        subst hs
        obtain ⟨he, hfix⟩ := getResultsAll_second_run o sn (ensureJobStatus results) r1
          (ensureJobStatus_hasKey results) hall
        rw [he, hfix]
    · rcases hL : getResultsLoop o sn (t :: ts) [] (ensureJobStatus results) with ⟨o1, r1⟩
      simp only [get_results, hL] at h ⊢
      simp only [Except.ok.injEq, GetResultsOutcome.mk.injEq] at h
      obtain ⟨ho, hs⟩ := h
      subst ho
      subst hs
      have hk1 : hasKey r1 "job_status" = true := by
        have hm := getResultsLoop_hasKey_mono o sn (t :: ts) [] (ensureJobStatus results)
          "job_status" (ensureJobStatus_hasKey results)
        rw [hL] at hm
        exact hm
      rw [ensureJobStatus_of_hasKey r1 hk1,
        getResultsLoop_fixpoint o sn (t :: ts) [] (ensureJobStatus results) o1 r1 hL]

/-- Witness for C5: a board with one pending myxmatch job, an oracle
reporting it COMPLETED; the first read fetches and caches the payload,
and the theorem applied to that first read gives that the second read
returns the same output from the same state. -/
theorem c5_witness :
    get_results oracle1 "b" (some [.myxmatch])
      [("job_status", .dict [("myxmatch",
        .dict [("job_name", .s "j1"), ("status", .s "COMPLETED")])]),
       ("myxmatch", .dict [("winner", .s "B")])] =
      .ok { output := .dict [("myxmatch", .dict [("winner", .s "B")])]
            results := [("job_status", .dict [("myxmatch",
              .dict [("job_name", .s "j1"), ("status", .s "COMPLETED")])]),
              ("myxmatch", .dict [("winner", .s "B")])] } :=
  c5_get_results_idempotent oracle1 "b" (some [.myxmatch]) pendingState
    (.dict [("myxmatch", .dict [("winner", .s "B")])])
    [("job_status", .dict [("myxmatch",
      .dict [("job_name", .s "j1"), ("status", .s "COMPLETED")])]),
     ("myxmatch", .dict [("winner", .s "B")])]
    (by rfl)
